import Mathlib

/-!
Shallow embedding of the BlindOracle privacy-preserving prediction market
contract. Encrypted euint8/euint64 values are modelled as plain naturals
reduced modulo 2^8 / 2^64 at the points where the FHE library would wrap;
decryption proofs and ZK input proofs are modelled as boolean validity flags;
the asynchronous decryption authority is modelled by passing the cleartexts
and the proof flag to the callback entry points. Every state-mutating entry
point of the contract becomes a function MarketState to Except Err MarketState,
returning the error of the first failing require clause, in source order.
-/

namespace BlindOracle

/-- Modulus of the euint64 domain. -/
def U64 : Nat := 18446744073709551616

/-- Modulus of the euint8 domain. -/
def U8 : Nat := 256

/-- Challenge period of 24 hours, in seconds. -/
def CHALLENGE_PERIOD : Nat := 86400

/-- Market phases, in declaration order of the Solidity enum. -/
inductive Phase
  | BlindCommitment
  | Aggregating
  | AwaitingDecryption
  | Settled
deriving DecidableEq, Repr

/-- Numeric rank of a phase, its position in the enum declaration. -/
def Phase.rank : Phase → Nat
  | .BlindCommitment => 0
  | .Aggregating => 1
  | .AwaitingDecryption => 2
  | .Settled => 3

/-- Market types. -/
inductive MarketType
  | Event
  | Price
deriving DecidableEq, Repr

/-- Revert reasons, one per require clause of the contract. -/
inductive Err
  | InvalidPhase
  | OnlyOwner
  | CommitmentPeriodEnded
  | AlreadyCommitted
  | NoValue
  | OwnerExcluded
  | InvalidProof
  | CommitmentPeriodNotEnded
  | NoParticipants
  | NotAggregated
  | InvalidRequestId
  | ProofInvalid
  | OnlyEventMarkets
  | SettlementAlreadyProposed
  | StakeAlreadyDeposited
  | InsufficientStake
  | AlreadySettled
  | EventNotEnded
  | NoStakeDeposited
  | SettlementNotProposed
  | ChallengePeriodNotEnded
  | ChallengePeriodEnded
  | NotParticipant
  | OnlyPriceMarkets
  | OracleNotSet
  | AggregationNotCompleted
  | NoBets
  | OracleUnavailable
  | MarketNotSettled
  | AlreadyClaimed
  | DidNotParticipate
  | UserNotFound
  | Lost
  | DivisionByZero
  | TransferFailed
deriving DecidableEq, Repr

/-- A stored user commitment: encrypted prediction (euint8, 0 = NO, 1 = YES),
encrypted amount (euint64, wei) and the hasCommitted flag. -/
structure Commitment where
  encryptedPrediction : Nat
  encryptedAmount : Nat
  hasCommitted : Bool
deriving Repr

/-- The default (never committed) slot of the commitments mapping. -/
def Commitment.empty : Commitment := ⟨0, 0, false⟩

/-- Point update of a mapping keyed by an address (modelled as Nat). -/
def updateMap {α : Type} (m : Nat → α) (k : Nat) (v : α) : Nat → α :=
  fun x => if x = k then v else m x

/-- The full mutable state of one BlindOracle market, together with the
contract ETH balance and the counter the decryption gateway draws fresh
request ids from. -/
structure MarketState where
  currentPhase : Phase
  marketType : MarketType
  owner : Nat
  commitmentDeadline : Nat
  eventDeadline : Nat
  priceOracleSet : Bool
  targetPrice : Nat
  commitments : Nat → Commitment
  participants : List Nat
  encryptedTotalYes : Nat
  encryptedTotalNo : Nat
  aggregateDecryptionRequestId : Nat
  isAggregated : Bool
  totalYesAmount : Nat
  totalNoAmount : Nat
  isSettled : Bool
  finalOutcome : Bool
  settlementProposedTime : Nat
  proposedOutcome : Bool
  isSettlementProposed : Bool
  ownerStake : Nat
  hasClaimed : Nat → Bool
  claimRequestIds : Nat → Nat
  balance : Nat
  nextRequestId : Nat

/-- State produced by the constructor: commitmentDeadline is deployment time
plus the commitment duration, eventDeadline is commitmentDeadline plus the
event duration. -/
def initialState (mt : MarketType) (creator now commitmentDuration eventDuration : Nat)
    (oracleSet : Bool) (tPrice : Nat) : MarketState where
  currentPhase := Phase.BlindCommitment
  marketType := mt
  owner := creator
  commitmentDeadline := now + commitmentDuration
  eventDeadline := now + commitmentDuration + eventDuration
  priceOracleSet := oracleSet
  targetPrice := tPrice
  commitments := fun _ => Commitment.empty
  participants := []
  encryptedTotalYes := 0
  encryptedTotalNo := 0
  aggregateDecryptionRequestId := 0
  isAggregated := false
  totalYesAmount := 0
  totalNoAmount := 0
  isSettled := false
  finalOutcome := false
  settlementProposedTime := 0
  proposedOutcome := false
  isSettlementProposed := false
  ownerStake := 0
  hasClaimed := fun _ => false
  claimRequestIds := fun _ => 0
  balance := 0
  nextRequestId := 1

/-- commitPrediction: submit an encrypted prediction and bet amount during the
blind commitment phase. The require clauses appear in source order: phase
modifier, deadline, duplicate commitment, nonzero value, owner exclusion for
Event markets, then the two external-input proof verifications. -/
def commitPrediction (s : MarketState) (sender value now extPrediction extAmount : Nat)
    (predictionProofOk amountProofOk : Bool) : Except Err MarketState :=
  if s.currentPhase ≠ Phase.BlindCommitment then .error .InvalidPhase
  else if ¬ now < s.commitmentDeadline then .error .CommitmentPeriodEnded
  else if (s.commitments sender).hasCommitted then .error .AlreadyCommitted
  else if ¬ 0 < value then .error .NoValue
  else if s.marketType = MarketType.Event ∧ sender = s.owner then .error .OwnerExcluded
  else if predictionProofOk = false then .error .InvalidProof
  else if amountProofOk = false then .error .InvalidProof
  else
    .ok { s with
      commitments := updateMap s.commitments sender
        ⟨extPrediction % U8, extAmount % U64, true⟩
      participants := s.participants ++ [sender]
      balance := s.balance + value }

/-- One iteration of the aggregation loop: for a participant with encrypted
prediction p and amount a, the yes flag is p itself, the no flag is
FHE.sub(1, p) in the euint8 domain, both are widened to euint64, multiplied
by the amount and added into the running totals, all modulo 2^64. -/
def aggStep (s : MarketState) (acc : Nat × Nat) (participant : Nat) : Nat × Nat :=
  let c := s.commitments participant
  let isYes64 := c.encryptedPrediction
  let isNo64 := (257 - c.encryptedPrediction % U8) % U8
  let yesContribution := c.encryptedAmount * isYes64 % U64
  let noContribution := c.encryptedAmount * isNo64 % U64
  ((acc.1 + yesContribution) % U64, (acc.2 + noContribution) % U64)

/-- aggregateBets: fold the aggregation loop over the participants in
insertion order, starting from two encrypted zeros; set isAggregated and
advance the phase to Aggregating. -/
def aggregateBets (s : MarketState) (now : Nat) : Except Err MarketState :=
  if s.currentPhase ≠ Phase.BlindCommitment then .error .InvalidPhase
  else if ¬ s.commitmentDeadline ≤ now then .error .CommitmentPeriodNotEnded
  else if ¬ 0 < s.participants.length then .error .NoParticipants
  else
    let totals := s.participants.foldl (aggStep s) (0, 0)
    .ok { s with
      encryptedTotalYes := totals.1
      encryptedTotalNo := totals.2
      isAggregated := true
      currentPhase := Phase.Aggregating }

/-- requestAggregateDecryption: package the two accumulators for decryption,
store the fresh request id as the pending one, advance to AwaitingDecryption. -/
def requestAggregateDecryption (s : MarketState) : Except Err MarketState :=
  if s.currentPhase ≠ Phase.Aggregating then .error .InvalidPhase
  else if s.isAggregated = false then .error .NotAggregated
  else
    .ok { s with
      aggregateDecryptionRequestId := s.nextRequestId
      nextRequestId := s.nextRequestId + 1
      currentPhase := Phase.AwaitingDecryption }

/-- callbackAggregateDecryption: the decryption oracle returns the two
decrypted uint64 totals. Require clauses in source order: request id match,
phase, KMS signature check; then the totals are stored and the phase moves
directly to Settled. -/
def callbackAggregateDecryption (s : MarketState) (requestId yesAmount noAmount : Nat)
    (proofOk : Bool) : Except Err MarketState :=
  if requestId ≠ s.aggregateDecryptionRequestId then .error .InvalidRequestId
  else if s.currentPhase ≠ Phase.AwaitingDecryption then .error .InvalidPhase
  else if proofOk = false then .error .ProofInvalid
  else
    .ok { s with
      totalYesAmount := yesAmount % U64
      totalNoAmount := noAmount % U64
      currentPhase := Phase.Settled }

/-- depositOwnerStake: owner-only (modifier first), phase Settled, Event kind,
no prior proposal, no existing stake, and the attached value must be at least
totalPool / 10 with integer (floor) division. -/
def depositOwnerStake (s : MarketState) (sender value : Nat) : Except Err MarketState :=
  if sender ≠ s.owner then .error .OnlyOwner
  else if s.currentPhase ≠ Phase.Settled then .error .InvalidPhase
  else if s.marketType ≠ MarketType.Event then .error .OnlyEventMarkets
  else if s.isSettlementProposed then .error .SettlementAlreadyProposed
  else if s.ownerStake ≠ 0 then .error .StakeAlreadyDeposited
  else if ¬ (s.totalYesAmount + s.totalNoAmount) / 10 ≤ value then .error .InsufficientStake
  else
    .ok { s with ownerStake := value, balance := s.balance + value }

/-- proposeSettlement: owner-only, phase Settled, Event kind, not yet settled,
no prior proposal, event deadline reached, stake deposited. Records the
proposed outcome and the proposal time. -/
def proposeSettlement (s : MarketState) (sender : Nat) (outcome : Bool) (now : Nat) :
    Except Err MarketState :=
  if sender ≠ s.owner then .error .OnlyOwner
  else if s.currentPhase ≠ Phase.Settled then .error .InvalidPhase
  else if s.marketType ≠ MarketType.Event then .error .OnlyEventMarkets
  else if s.isSettled then .error .AlreadySettled
  else if s.isSettlementProposed then .error .SettlementAlreadyProposed
  else if ¬ s.eventDeadline ≤ now then .error .EventNotEnded
  else if ¬ 0 < s.ownerStake then .error .NoStakeDeposited
  else
    .ok { s with
      proposedOutcome := outcome
      isSettlementProposed := true
      settlementProposedTime := now }

/-- finalizeSettlement: callable by anyone after the challenge period; commits
the proposed outcome, marks the market settled and returns the full stake to
the owner (the ETH transfer is modelled as succeeding when the balance
covers it). -/
def finalizeSettlement (s : MarketState) (now : Nat) : Except Err MarketState :=
  if s.currentPhase ≠ Phase.Settled then .error .InvalidPhase
  else if s.marketType ≠ MarketType.Event then .error .OnlyEventMarkets
  else if s.isSettlementProposed = false then .error .SettlementNotProposed
  else if s.isSettled then .error .AlreadySettled
  else if ¬ s.settlementProposedTime + CHALLENGE_PERIOD ≤ now then
    .error .ChallengePeriodNotEnded
  else if s.ownerStake ≤ s.balance then
    .ok { s with
      finalOutcome := s.proposedOutcome
      isSettled := true
      ownerStake := 0
      balance := s.balance - s.ownerStake }
  else .error .TransferFailed

/-- challengeSettlement: a committed participant records a challenge within
the 24-hour window; no state is mutated, only an event is emitted. -/
def challengeSettlement (s : MarketState) (sender now : Nat) : Except Err MarketState :=
  if s.currentPhase ≠ Phase.Settled then .error .InvalidPhase
  else if s.isSettlementProposed = false then .error .SettlementNotProposed
  else if s.isSettled then .error .AlreadySettled
  else if ¬ now < s.settlementProposedTime + CHALLENGE_PERIOD then
    .error .ChallengePeriodEnded
  else if (s.commitments sender).hasCommitted = false then .error .NotParticipant
  else .ok s

/-- settlePriceMarket: Price kind only, not yet settled, event deadline
reached, oracle configured, phase already Settled (aggregation and decryption
completed), at least one side nonzero; the oracle response is modelled as an
optional price (none when the oracle call itself reverts). Outcome is YES iff
the price is at least the target. -/
def settlePriceMarket (s : MarketState) (now : Nat) (oraclePrice : Option Nat) :
    Except Err MarketState :=
  if s.marketType ≠ MarketType.Price then .error .OnlyPriceMarkets
  else if s.isSettled then .error .AlreadySettled
  else if ¬ s.eventDeadline ≤ now then .error .EventNotEnded
  else if s.priceOracleSet = false then .error .OracleNotSet
  else if s.currentPhase ≠ Phase.Settled then .error .AggregationNotCompleted
  else if ¬ (0 < s.totalYesAmount ∨ 0 < s.totalNoAmount) then .error .NoBets
  else
    match oraclePrice with
    | none => .error .OracleUnavailable
    | some currentPrice =>
      .ok { s with
        finalOutcome := decide (s.targetPrice ≤ currentPrice)
        isSettled := true }

/-- claimRewards: phase Settled, market settled, caller not yet claimed,
caller committed. Issues a fresh decryption request for the caller's own two
ciphertexts and stores its id under the caller, overwriting any earlier one. -/
def claimRewards (s : MarketState) (sender : Nat) : Except Err MarketState :=
  if s.currentPhase ≠ Phase.Settled then .error .InvalidPhase
  else if s.isSettled = false then .error .MarketNotSettled
  else if s.hasClaimed sender then .error .AlreadyClaimed
  else if (s.commitments sender).hasCommitted = false then .error .DidNotParticipate
  else
    .ok { s with
      claimRequestIds := updateMap s.claimRequestIds sender s.nextRequestId
      nextRequestId := s.nextRequestId + 1 }

/-- The lookup loop of callbackClaimRewards: scan the participants in order
for the first whose stored claim request id equals the callback id; the
contract initialises the result to address zero. -/
def findClaimUser (s : MarketState) (requestId : Nat) : Nat :=
  match s.participants.find? (fun p => s.claimRequestIds p == requestId) with
  | some p => p
  | none => 0

/-- callbackClaimRewards: phase and settlement guards, KMS signature check,
user lookup by request id, double-claim guard, win check on the decrypted
prediction; on win the user is marked claimed and paid
amount * balance / totalWinningAmount out of the current contract balance
(division by a zero winning total and a transfer exceeding the balance
revert, as in the EVM). -/
def callbackClaimRewards (s : MarketState) (requestId predictionClear amountClear : Nat)
    (proofOk : Bool) : Except Err MarketState :=
  if s.currentPhase ≠ Phase.Settled then .error .InvalidPhase
  else if s.isSettled = false then .error .MarketNotSettled
  else if proofOk = false then .error .ProofInvalid
  else if findClaimUser s requestId = 0 then .error .UserNotFound
  else if s.hasClaimed (findClaimUser s requestId) then .error .AlreadyClaimed
  else if ¬ ((predictionClear % U8 = 1 ∧ s.finalOutcome = true) ∨
             (predictionClear % U8 = 0 ∧ s.finalOutcome = false)) then .error .Lost
  else if (if s.finalOutcome then s.totalYesAmount else s.totalNoAmount) = 0 then
    .error .DivisionByZero
  else if (amountClear % U64) * s.balance /
      (if s.finalOutcome then s.totalYesAmount else s.totalNoAmount) ≤ s.balance then
    .ok { s with
      hasClaimed := updateMap s.hasClaimed (findClaimUser s requestId) true
      balance := s.balance - (amountClear % U64) * s.balance /
        (if s.finalOutcome then s.totalYesAmount else s.totalNoAmount) }
  else .error .TransferFailed

/-- Arguments of one commitPrediction call. -/
structure CommitCall where
  sender : Nat
  value : Nat
  now : Nat
  extPrediction : Nat
  extAmount : Nat
  predictionProofOk : Bool
  amountProofOk : Bool

/-- Apply one commit call. -/
def applyCommit (s : MarketState) (c : CommitCall) : Except Err MarketState :=
  commitPrediction s c.sender c.value c.now c.extPrediction c.extAmount
    c.predictionProofOk c.amountProofOk

/-- Run a sequence of commit calls, failing on the first failure. -/
def commitMany (calls : List CommitCall) (s : MarketState) : Except Err MarketState :=
  match calls with
  | [] => .ok s
  | c :: rest =>
    match applyCommit s c with
    | .ok s1 => commitMany rest s1
    | .error e => .error e

/-- Sum of the plaintext amounts inside all stored commitments, indexed by the
participants list. -/
def sumCommittedAmounts (s : MarketState) : Nat :=
  (s.participants.map (fun p => (s.commitments p).encryptedAmount)).sum

/-- All stored predictions on the participants list lie in {0,1} and all
stored amounts lie in the euint64 domain. -/
def GoodState (s : MarketState) : Prop :=
  ∀ q ∈ s.participants,
    (s.commitments q).encryptedPrediction ≤ 1 ∧ (s.commitments q).encryptedAmount < U64

/-- One invocation of any state-mutating entry point of the market, with the
arguments and environment data (caller, attached value, current time, oracle
response, decryption cleartexts and proof validity) it receives. -/
inductive Op
  | commit (sender value now extPrediction extAmount : Nat) (pOk aOk : Bool)
  | aggregate (now : Nat)
  | requestDec
  | callbackAgg (requestId yesAmount noAmount : Nat) (proofOk : Bool)
  | deposit (sender value : Nat)
  | propose (sender : Nat) (outcome : Bool) (now : Nat)
  | finalize (now : Nat)
  | challenge (sender now : Nat)
  | settlePrice (now : Nat) (oraclePrice : Option Nat)
  | claim (sender : Nat)
  | callbackClaim (requestId predictionClear amountClear : Nat) (proofOk : Bool)

/-- Dispatch an operation to its entry point. -/
def step (op : Op) (s : MarketState) : Except Err MarketState :=
  match op with
  | .commit sender value now eP eA pOk aOk =>
    commitPrediction s sender value now eP eA pOk aOk
  | .aggregate now => aggregateBets s now
  | .requestDec => requestAggregateDecryption s
  | .callbackAgg rid y n pOk => callbackAggregateDecryption s rid y n pOk
  | .deposit sender value => depositOwnerStake s sender value
  | .propose sender outcome now => proposeSettlement s sender outcome now
  | .finalize now => finalizeSettlement s now
  | .challenge sender now => challengeSettlement s sender now
  | .settlePrice now p => settlePriceMarket s now p
  | .claim sender => claimRewards s sender
  | .callbackClaim rid p a pOk => callbackClaimRewards s rid p a pOk

/-! ## Concrete states and runs used by witnesses and counterexamples. -/

/-- Concrete one-participant market used to witness the phase theorem. -/
def C2s : MarketState :=
  { initialState MarketType.Event 0 0 0 0 false 0 with
    commitments := updateMap (fun _ => Commitment.empty) 1 ⟨1, 7, true⟩
    participants := [1]
    balance := 7 }

/-- Result of aggregating the witness market. -/
def C2s1 : MarketState :=
  match step (Op.aggregate 5) C2s with
  | .ok s => s
  | .error _ => C2s

/-- Concrete Price market in phase Settled used for the C7 witness. -/
def C7s : MarketState :=
  { initialState MarketType.Price 0 0 0 0 true 100 with
    currentPhase := Phase.Settled
    totalYesAmount := 5
    totalNoAmount := 3
    balance := 8 }

/-- Result of settling the witness Price market at price 150. -/
def C7s1 : MarketState :=
  match settlePriceMarket C7s 10 (some 150) with
  | .ok s => s
  | .error _ => C7s

/-- Concrete settled Event market with pool 15 wei. -/
def C8s : MarketState :=
  { initialState MarketType.Event 0 0 0 0 false 0 with
    currentPhase := Phase.Settled
    totalYesAmount := 15 }

/-- Market awaiting the aggregate decryption callback with pending id 7. -/
def C3s : MarketState :=
  { initialState MarketType.Event 0 0 0 0 false 0 with
    currentPhase := Phase.AwaitingDecryption
    aggregateDecryptionRequestId := 7
    isAggregated := true
    participants := [1]
    commitments := updateMap (fun _ => Commitment.empty) 1 ⟨1, 3, true⟩
    balance := 3
    nextRequestId := 8 }

/-- Result of delivering the pending aggregate decryption callback on C3s. -/
def C3s1 : MarketState :=
  match callbackAggregateDecryption C3s 7 1 2 true with
  | .ok s => s
  | .error _ => C3s

/-- Settled market whose participant 1 has an outstanding claim request 5,
bet 4 wei on YES, with finalOutcome YES, winning total 10 and balance 20. -/
def C4s : MarketState :=
  { initialState MarketType.Event 0 0 0 0 false 0 with
    currentPhase := Phase.Settled
    isSettled := true
    finalOutcome := true
    totalYesAmount := 10
    totalNoAmount := 6
    participants := [1]
    commitments := updateMap (fun _ => Commitment.empty) 1 ⟨1, 4, true⟩
    claimRequestIds := updateMap (fun _ => 0) 1 5
    balance := 20
    nextRequestId := 6 }

/-- Result of delivering the winning claim callback on C4s. -/
def C4s1 : MarketState :=
  match callbackClaimRewards C4s 5 1 4 true with
  | .ok s => s
  | .error _ => C4s

/-- Blind-commitment market with deadline 10 where address 1 already holds a
commitment. -/
def C5s : MarketState :=
  { initialState MarketType.Event 0 0 10 0 false 0 with
    commitments := updateMap (fun _ => Commitment.empty) 1 ⟨1, 5, true⟩
    participants := [1]
    balance := 5 }

/-- Settled market (outcome YES) whose participant 1 has pending claim
request 5 and has not yet claimed. -/
def C6s : MarketState :=
  { initialState MarketType.Event 0 0 0 0 false 0 with
    currentPhase := Phase.Settled
    isSettled := true
    finalOutcome := true
    totalYesAmount := 10
    totalNoAmount := 6
    participants := [1]
    commitments := updateMap (fun _ => Commitment.empty) 1 ⟨0, 4, true⟩
    claimRequestIds := updateMap (fun _ => 0) 1 5
    balance := 16
    nextRequestId := 6 }

/-- The same market as C6s after participant 1 has been marked claimed. -/
def C6sClaimed : MarketState :=
  { C6s with hasClaimed := updateMap (fun _ => false) 1 true }

/-- Settled market where participant 1 holds an unclaimed commitment and no
claim request has been issued yet. -/
def C9s : MarketState :=
  { initialState MarketType.Event 0 0 0 0 false 0 with
    currentPhase := Phase.Settled
    isSettled := true
    finalOutcome := true
    totalYesAmount := 10
    totalNoAmount := 0
    participants := [1]
    commitments := updateMap (fun _ => Commitment.empty) 1 ⟨1, 10, true⟩
    balance := 10 }

/-- Fresh Price market used for the commit-binding claims. -/
def C10base : MarketState := initialState MarketType.Price 0 0 10 0 true 1

/-- Result of committing from address 1 with attached value 1 wei but an
encrypted amount of 5 wei. -/
def C10s1 : MarketState :=
  match commitPrediction C10base 1 1 0 1 5 true true with
  | .ok s => s
  | .error _ => C10base

/-- Initial state for the conservation counterexample: owner 0, commitment
deadline 10. -/
def C1s0 : MarketState := initialState MarketType.Event 0 0 10 0 false 0

/-- Two YES commits of 2^63 wei each: their sum is exactly 2^64, which wraps
to zero in the euint64 accumulators. -/
def C1calls : List CommitCall :=
  [⟨1, 1, 0, 1, 9223372036854775808, true, true⟩,
   ⟨2, 1, 0, 1, 9223372036854775808, true, true⟩]

/-- State after the two overflowing commits. -/
def C1s1 : MarketState :=
  match commitMany C1calls C1s0 with
  | .ok s => s
  | .error _ => C1s0

/-- State after aggregation of the overflowing commits. -/
def C1s2 : MarketState :=
  match aggregateBets C1s1 10 with
  | .ok s => s
  | .error _ => C1s1

/-- State after the decryption request. -/
def C1s3 : MarketState :=
  match requestAggregateDecryption C1s2 with
  | .ok s => s
  | .error _ => C1s2

/-- State after the genuine decryption callback. -/
def C1s4 : MarketState :=
  match callbackAggregateDecryption C1s3 1 C1s3.encryptedTotalYes C1s3.encryptedTotalNo
      true with
  | .ok s => s
  | .error _ => C1s3

/-- Initial state for the conservation witness run. -/
def C1ws0 : MarketState := initialState MarketType.Event 9 0 10 0 false 0

/-- Three small commits: 10 wei on YES, 20 wei on NO, 15 wei on YES. -/
def C1wcalls : List CommitCall :=
  [⟨1, 10, 0, 1, 10, true, true⟩, ⟨2, 20, 0, 0, 20, true, true⟩,
   ⟨3, 15, 0, 1, 15, true, true⟩]

/-- State after the three witness commits. -/
def C1ws1 : MarketState :=
  match commitMany C1wcalls C1ws0 with
  | .ok s => s
  | .error _ => C1ws0

/-- State after aggregation of the witness commits. -/
def C1ws2 : MarketState :=
  match aggregateBets C1ws1 10 with
  | .ok s => s
  | .error _ => C1ws1

/-- State after the witness decryption request. -/
def C1ws3 : MarketState :=
  match requestAggregateDecryption C1ws2 with
  | .ok s => s
  | .error _ => C1ws2

/-- State after the genuine witness decryption callback. -/
def C1ws4 : MarketState :=
  match callbackAggregateDecryption C1ws3 1 C1ws3.encryptedTotalYes
      C1ws3.encryptedTotalNo true with
  | .ok s => s
  | .error _ => C1ws3

/-! ## Success inversion lemmas, one per state-mutating entry point. -/

theorem commitPrediction_ok_inv {s s1 : MarketState}
    {sender value now extPrediction extAmount : Nat} {pOk aOk : Bool}
    (h : commitPrediction s sender value now extPrediction extAmount pOk aOk =
      Except.ok s1) :
    s.currentPhase = Phase.BlindCommitment ∧ now < s.commitmentDeadline ∧
    (s.commitments sender).hasCommitted = false ∧ 0 < value ∧
    s1 = { s with
      commitments := updateMap s.commitments sender
        ⟨extPrediction % U8, extAmount % U64, true⟩
      participants := s.participants ++ [sender]
      balance := s.balance + value } := by
  unfold commitPrediction at h
  repeat' split at h
  all_goals first
    | exact Except.noConfusion h
    | (cases h
       refine ⟨by simp_all, by simp_all, by simp_all, by omega, rfl⟩)

theorem aggregateBets_ok_inv {s s1 : MarketState} {now : Nat}
    (h : aggregateBets s now = Except.ok s1) :
    s.currentPhase = Phase.BlindCommitment ∧ s.commitmentDeadline ≤ now ∧
    0 < s.participants.length ∧
    s1 = { s with
      encryptedTotalYes := (s.participants.foldl (aggStep s) (0, 0)).1
      encryptedTotalNo := (s.participants.foldl (aggStep s) (0, 0)).2
      isAggregated := true
      currentPhase := Phase.Aggregating } := by
  unfold aggregateBets at h
  repeat' split at h
  all_goals first
    | exact Except.noConfusion h
    | (cases h
       refine ⟨by simp_all, by simp_all, by simp_all [List.length_pos], rfl⟩)

theorem requestAggregateDecryption_ok_inv {s s1 : MarketState}
    (h : requestAggregateDecryption s = Except.ok s1) :
    s.currentPhase = Phase.Aggregating ∧ s.isAggregated = true ∧
    s1 = { s with
      aggregateDecryptionRequestId := s.nextRequestId
      nextRequestId := s.nextRequestId + 1
      currentPhase := Phase.AwaitingDecryption } := by
  unfold requestAggregateDecryption at h
  repeat' split at h
  all_goals first
    | exact Except.noConfusion h
    | (cases h
       refine ⟨by simp_all, by simp_all, rfl⟩)

theorem callbackAggregateDecryption_ok_inv {s s1 : MarketState}
    {requestId yesAmount noAmount : Nat} {proofOk : Bool}
    (h : callbackAggregateDecryption s requestId yesAmount noAmount proofOk =
      Except.ok s1) :
    requestId = s.aggregateDecryptionRequestId ∧
    s.currentPhase = Phase.AwaitingDecryption ∧ proofOk = true ∧
    s1 = { s with
      totalYesAmount := yesAmount % U64
      totalNoAmount := noAmount % U64
      currentPhase := Phase.Settled } := by
  unfold callbackAggregateDecryption at h
  repeat' split at h
  all_goals first
    | exact Except.noConfusion h
    | (cases h
       refine ⟨by simp_all, by simp_all, by simp_all, rfl⟩)

theorem depositOwnerStake_ok_inv {s s1 : MarketState} {sender value : Nat}
    (h : depositOwnerStake s sender value = Except.ok s1) :
    sender = s.owner ∧ s.currentPhase = Phase.Settled ∧
    s.marketType = MarketType.Event ∧ s.isSettlementProposed = false ∧
    s.ownerStake = 0 ∧ (s.totalYesAmount + s.totalNoAmount) / 10 ≤ value ∧
    s1 = { s with ownerStake := value, balance := s.balance + value } := by
  unfold depositOwnerStake at h
  repeat' split at h
  all_goals first
    | exact Except.noConfusion h
    | (cases h
       refine ⟨by simp_all, by simp_all, by simp_all, by simp_all, by simp_all,
         by simp_all, rfl⟩)

theorem proposeSettlement_ok_inv {s s1 : MarketState} {sender : Nat} {outcome : Bool}
    {now : Nat} (h : proposeSettlement s sender outcome now = Except.ok s1) :
    sender = s.owner ∧ s.currentPhase = Phase.Settled ∧
    s.marketType = MarketType.Event ∧ s.isSettled = false ∧
    s.isSettlementProposed = false ∧ s.eventDeadline ≤ now ∧ 0 < s.ownerStake ∧
    s1 = { s with
      proposedOutcome := outcome
      isSettlementProposed := true
      settlementProposedTime := now } := by
  unfold proposeSettlement at h
  repeat' split at h
  all_goals first
    | exact Except.noConfusion h
    | (cases h
       refine ⟨by simp_all, by simp_all, by simp_all, by simp_all, by simp_all,
         by simp_all, by omega, rfl⟩)

theorem finalizeSettlement_ok_inv {s s1 : MarketState} {now : Nat}
    (h : finalizeSettlement s now = Except.ok s1) :
    s.currentPhase = Phase.Settled ∧ s.marketType = MarketType.Event ∧
    s.isSettlementProposed = true ∧ s.isSettled = false ∧
    s.settlementProposedTime + CHALLENGE_PERIOD ≤ now ∧
    s1 = { s with
      finalOutcome := s.proposedOutcome
      isSettled := true
      ownerStake := 0
      balance := s.balance - s.ownerStake } := by
  unfold finalizeSettlement at h
  repeat' split at h
  all_goals first
    | exact Except.noConfusion h
    | (cases h
       refine ⟨by simp_all, by simp_all, by simp_all, by simp_all, by simp_all, rfl⟩)

theorem challengeSettlement_ok_inv {s s1 : MarketState} {sender now : Nat}
    (h : challengeSettlement s sender now = Except.ok s1) :
    s.currentPhase = Phase.Settled ∧ s.isSettlementProposed = true ∧
    s.isSettled = false ∧ now < s.settlementProposedTime + CHALLENGE_PERIOD ∧
    (s.commitments sender).hasCommitted = true ∧ s1 = s := by
  unfold challengeSettlement at h
  repeat' split at h
  all_goals first
    | exact Except.noConfusion h
    | (cases h
       refine ⟨by simp_all, by simp_all, by simp_all, by simp_all, by simp_all, rfl⟩)

theorem settlePriceMarket_ok_inv {s s1 : MarketState} {now : Nat}
    {oraclePrice : Option Nat} (h : settlePriceMarket s now oraclePrice = Except.ok s1) :
    s.marketType = MarketType.Price ∧ s.isSettled = false ∧ s.eventDeadline ≤ now ∧
    s.priceOracleSet = true ∧ s.currentPhase = Phase.Settled ∧
    (0 < s.totalYesAmount ∨ 0 < s.totalNoAmount) ∧
    ∃ price, oraclePrice = some price ∧
      s1 = { s with
        finalOutcome := decide (s.targetPrice ≤ price)
        isSettled := true } := by
  unfold settlePriceMarket at h
  repeat' split at h
  all_goals first
    | exact Except.noConfusion h
    | (cases h
       refine ⟨by simp_all, by simp_all, by simp_all, by simp_all, by simp_all,
         by omega, _, by simp_all, rfl⟩)

theorem callbackClaimRewards_ok_inv {s s1 : MarketState}
    {requestId predictionClear amountClear : Nat} {proofOk : Bool}
    (h : callbackClaimRewards s requestId predictionClear amountClear proofOk =
      Except.ok s1) :
    s.currentPhase = Phase.Settled ∧ s.isSettled = true ∧ proofOk = true ∧
    findClaimUser s requestId ≠ 0 ∧
    s.hasClaimed (findClaimUser s requestId) = false ∧
    ((predictionClear % U8 = 1 ∧ s.finalOutcome = true) ∨
     (predictionClear % U8 = 0 ∧ s.finalOutcome = false)) ∧
    (if s.finalOutcome then s.totalYesAmount else s.totalNoAmount) ≠ 0 ∧
    (amountClear % U64) * s.balance /
        (if s.finalOutcome then s.totalYesAmount else s.totalNoAmount) ≤ s.balance ∧
    s1 = { s with
      hasClaimed := updateMap s.hasClaimed (findClaimUser s requestId) true
      balance := s.balance - (amountClear % U64) * s.balance /
        (if s.finalOutcome then s.totalYesAmount else s.totalNoAmount) } := by
  unfold callbackClaimRewards at h
  repeat' split at h
  all_goals first
    | exact Except.noConfusion h
    | (cases h
       refine ⟨by simp_all, by simp_all, by simp_all, by simp_all, by simp_all,
         by simp_all, by simp_all, by simp_all, by simp_all⟩)

theorem claimRewards_ok_inv {s s1 : MarketState} {sender : Nat}
    (h : claimRewards s sender = Except.ok s1) :
    s.currentPhase = Phase.Settled ∧ s.isSettled = true ∧
    s.hasClaimed sender = false ∧ (s.commitments sender).hasCommitted = true ∧
    s1 = { s with
      claimRequestIds := updateMap s.claimRequestIds sender s.nextRequestId
      nextRequestId := s.nextRequestId + 1 } := by
  unfold claimRewards at h
  repeat' split at h
  all_goals first
    | exact Except.noConfusion h
    | (cases h
       refine ⟨by simp_all, by simp_all, by simp_all, by simp_all, rfl⟩)

/-- C2: in every state, every successful operation of the market either leaves
the phase unchanged or advances it by exactly one position along
BlindCommitment, Aggregating, AwaitingDecryption, Settled: no operation moves
the phase backwards or skips an intermediate phase. -/
theorem phase_monotonic (op : Op) (s s1 : MarketState)
    (h : step op s = Except.ok s1) :
    s.currentPhase.rank ≤ s1.currentPhase.rank ∧
    s1.currentPhase.rank ≤ s.currentPhase.rank + 1 := by
  cases op with
  | commit sender value now eP eA pOk aOk =>
    simp only [step] at h
    obtain ⟨_, _, _, _, hs⟩ := commitPrediction_ok_inv h
    subst hs
    exact ⟨Nat.le_refl _, Nat.le_succ _⟩
  | aggregate now =>
    simp only [step] at h
    obtain ⟨hp, _, _, hs⟩ := aggregateBets_ok_inv h
    subst hs
    simp only [hp, Phase.rank]
    omega
  | requestDec =>
    simp only [step] at h
    obtain ⟨hp, _, hs⟩ := requestAggregateDecryption_ok_inv h
    subst hs
    simp only [hp, Phase.rank]
    omega
  | callbackAgg rid y n pOk =>
    simp only [step] at h
    obtain ⟨_, hp, _, hs⟩ := callbackAggregateDecryption_ok_inv h
    subst hs
    simp only [hp, Phase.rank]
    omega
  | deposit sender value =>
    simp only [step] at h
    obtain ⟨_, _, _, _, _, _, hs⟩ := depositOwnerStake_ok_inv h
    subst hs
    exact ⟨Nat.le_refl _, Nat.le_succ _⟩
  | propose sender outcome now =>
    simp only [step] at h
    obtain ⟨_, _, _, _, _, _, _, hs⟩ := proposeSettlement_ok_inv h
    subst hs
    exact ⟨Nat.le_refl _, Nat.le_succ _⟩
  | finalize now =>
    simp only [step] at h
    obtain ⟨_, _, _, _, _, hs⟩ := finalizeSettlement_ok_inv h
    subst hs
    exact ⟨Nat.le_refl _, Nat.le_succ _⟩
  | challenge sender now =>
    simp only [step] at h
    obtain ⟨_, _, _, _, _, hs⟩ := challengeSettlement_ok_inv h
    subst hs
    exact ⟨Nat.le_refl _, Nat.le_succ _⟩
  | settlePrice now p =>
    simp only [step] at h
    obtain ⟨_, _, _, _, _, _, price, hp, hs⟩ := settlePriceMarket_ok_inv h
    subst hs
    exact ⟨Nat.le_refl _, Nat.le_succ _⟩
  | claim sender =>
    simp only [step] at h
    obtain ⟨_, _, _, _, hs⟩ := claimRewards_ok_inv h
    subst hs
    exact ⟨Nat.le_refl _, Nat.le_succ _⟩
  | callbackClaim rid p a pOk =>
    simp only [step] at h
    obtain ⟨_, _, _, _, _, _, _, _, hs⟩ := callbackClaimRewards_ok_inv h
    subst hs
    exact ⟨Nat.le_refl _, Nat.le_succ _⟩

/-- Witness for C2: a concrete successful aggregation advances the phase from
BlindCommitment to Aggregating, one position forward. -/
theorem phase_monotonic_witness :
    C2s.currentPhase.rank ≤ C2s1.currentPhase.rank ∧
    C2s1.currentPhase.rank ≤ C2s.currentPhase.rank + 1 :=
  phase_monotonic (Op.aggregate 5) C2s C2s1 (by rfl)

/-- C7: settlePriceMarket succeeds only for a Price-kind market that is not yet
settled, with now at least eventDeadline, phase already Settled, and at least
one of the two totals nonzero; on success finalOutcome is true iff the oracle
price is at least targetPrice, and the market is marked settled immediately. -/
theorem settlePriceMarket_spec (s s1 : MarketState) (now price : Nat)
    (h : settlePriceMarket s now (some price) = Except.ok s1) :
    s.marketType = MarketType.Price ∧ s.isSettled = false ∧ s.eventDeadline ≤ now ∧
    s.currentPhase = Phase.Settled ∧ (0 < s.totalYesAmount ∨ 0 < s.totalNoAmount) ∧
    (s1.finalOutcome = true ↔ s.targetPrice ≤ price) ∧ s1.isSettled = true := by
  obtain ⟨h1, h2, h3, _, h5, h6, p, hp, hs⟩ := settlePriceMarket_ok_inv h
  injection hp with hpp
  subst hpp
  subst hs
  exact ⟨h1, h2, h3, h5, h6, by simp, rfl⟩

/-- Witness for C7: settling the concrete Price market at oracle price 150 with
target 100 succeeds and sets finalOutcome true. -/
theorem settlePriceMarket_spec_witness :
    C7s.marketType = MarketType.Price ∧ C7s.isSettled = false ∧
    C7s.eventDeadline ≤ 10 ∧ C7s.currentPhase = Phase.Settled ∧
    (0 < C7s.totalYesAmount ∨ 0 < C7s.totalNoAmount) ∧
    (C7s1.finalOutcome = true ↔ C7s.targetPrice ≤ 150) ∧ C7s1.isSettled = true :=
  settlePriceMarket_spec C7s C7s1 10 150 (by rfl)

/-- C8 (amended): depositOwnerStake, called by the owner of an Event-kind
market in phase Settled with no existing stake and no prior proposal, succeeds
iff the attached value is at least the integer floor of
(totalYesAmount + totalNoAmount) / 10, not the exact rational ten percent. -/
theorem depositOwnerStake_floor_threshold (s : MarketState) (value : Nat)
    (hphase : s.currentPhase = Phase.Settled) (hkind : s.marketType = MarketType.Event)
    (hprop : s.isSettlementProposed = false) (hstake : s.ownerStake = 0) :
    (∃ s1, depositOwnerStake s s.owner value = Except.ok s1) ↔
      (s.totalYesAmount + s.totalNoAmount) / 10 ≤ value := by
  constructor
  · rintro ⟨s1, h⟩
    exact (depositOwnerStake_ok_inv h).2.2.2.2.2.1
  · intro hle
    refine ⟨{ s with ownerStake := value, balance := s.balance + value }, ?_⟩
    simp [depositOwnerStake, hphase, hkind, hprop, hstake, hle]

/-- Counterexample to C8 as stated: with a pool of 15 the contract accepts a
stake of 1 (since 15 / 10 = 1 by floor division) although ten times the stake
is below the pool, so 1 is strictly less than the exact rational ten percent
of the pool. -/
theorem depositOwnerStake_not_exact_tenth :
    (∃ s1, depositOwnerStake C8s 0 1 = Except.ok s1) ∧
      10 * 1 < C8s.totalYesAmount + C8s.totalNoAmount :=
  ⟨⟨{ C8s with ownerStake := 1, balance := C8s.balance + 1 }, by rfl⟩, by decide⟩

/-- Witness for C8 (amended): for the concrete pool of 15, acceptance of a
stake of 2 is equivalent to the floor threshold 15 / 10 = 1 being at most 2. -/
theorem depositOwnerStake_floor_threshold_witness :
    (∃ s1, depositOwnerStake C8s C8s.owner 2 = Except.ok s1) ↔
      (C8s.totalYesAmount + C8s.totalNoAmount) / 10 ≤ 2 :=
  depositOwnerStake_floor_threshold C8s 2 (by rfl) (by rfl) (by rfl) (by rfl)

/-- C5 (amended): a second commitPrediction from an address with a stored
commitment always fails and leaves the state unchanged, and the error is
AlreadyCommitted whenever the call is made in phase BlindCommitment before
the commitment deadline, regardless of the arguments and the attached value;
at or past the deadline, or out of phase, the deadline or phase guard fires
first with its own error. -/
theorem commitPrediction_at_most_once (s : MarketState)
    (sender value now extPrediction extAmount : Nat) (pOk aOk : Bool)
    (hc : (s.commitments sender).hasCommitted = true) :
    (∃ e, commitPrediction s sender value now extPrediction extAmount pOk aOk =
      Except.error e) ∧
    (s.currentPhase = Phase.BlindCommitment → now < s.commitmentDeadline →
      commitPrediction s sender value now extPrediction extAmount pOk aOk =
        Except.error Err.AlreadyCommitted) := by
  constructor
  · unfold commitPrediction
    repeat' split
    all_goals first
      | exact ⟨_, rfl⟩
      | simp_all
  · intro hph hnow
    unfold commitPrediction
    rw [if_neg (not_not_intro hph), if_neg (not_not_intro hnow), if_pos hc]

/-- Counterexample to C5 as stated: address 1 of C5s already committed; a
second commit at time 100, past the deadline 10, fails with the deadline
error, not with AlreadyCommitted. -/
theorem commitPrediction_second_not_always_AlreadyCommitted :
    commitPrediction C5s 1 5 100 1 5 true true =
      Except.error Err.CommitmentPeriodEnded ∧
    Err.CommitmentPeriodEnded ≠ Err.AlreadyCommitted :=
  ⟨by rfl, by decide⟩

/-- Witness for C5 (amended): inside the window the second commit from
address 1 fails, with the AlreadyCommitted error. -/
theorem commitPrediction_at_most_once_witness :
    (∃ e, commitPrediction C5s 1 9 3 0 2 true true = Except.error e) ∧
    commitPrediction C5s 1 9 3 0 2 true true = Except.error Err.AlreadyCommitted :=
  ⟨(commitPrediction_at_most_once C5s 1 9 3 0 2 true true (by rfl)).1,
   (commitPrediction_at_most_once C5s 1 9 3 0 2 true true (by rfl)).2
     (by rfl) (by decide)⟩

/-- C3 (amended): callbackAggregateDecryption rejects every id other than the
stored pending one with the request-id error, regardless of the cleartexts
and proof; after a successful callback every re-invocation fails, so the
totals can never be written twice — but a re-invocation with the same id
fails the phase check, since the pending id is never cleared, while only ids
different from the stored one fail the request-id check. -/
theorem callbackAggregate_request_id_binding (s s1 : MarketState)
    (rid y n : Nat) (pOk : Bool) :
    (rid ≠ s.aggregateDecryptionRequestId →
      callbackAggregateDecryption s rid y n pOk =
        Except.error Err.InvalidRequestId) ∧
    (callbackAggregateDecryption s rid y n pOk = Except.ok s1 →
      (∀ rid2 y2 n2 pOk2, rid2 ≠ s1.aggregateDecryptionRequestId →
        callbackAggregateDecryption s1 rid2 y2 n2 pOk2 =
          Except.error Err.InvalidRequestId) ∧
      (∀ y2 n2 pOk2,
        callbackAggregateDecryption s1 rid y2 n2 pOk2 =
          Except.error Err.InvalidPhase) ∧
      (∀ rid2 y2 n2 pOk2, ∃ e,
        callbackAggregateDecryption s1 rid2 y2 n2 pOk2 = Except.error e)) := by
  constructor
  · intro hne
    unfold callbackAggregateDecryption
    rw [if_pos hne]
  · intro hok
    obtain ⟨hrid, hph, hpOk, hs⟩ := callbackAggregateDecryption_ok_inv hok
    subst hs
    refine ⟨?_, ?_, ?_⟩
    · intro rid2 y2 n2 pOk2 hne2
      unfold callbackAggregateDecryption
      rw [if_pos hne2]
    · intro y2 n2 pOk2
      unfold callbackAggregateDecryption
      rw [if_neg (not_not_intro hrid), if_pos (by simp)]
    · intro rid2 y2 n2 pOk2
      unfold callbackAggregateDecryption
      split
      · exact ⟨_, rfl⟩
      · rw [if_pos (by simp)]
        exact ⟨_, rfl⟩

/-- Counterexample to C3 as stated: delivering the pending callback id 7 on
C3s succeeds, and a re-invocation with the very same id 7 then fails with the
phase error, not with the request-id error. -/
theorem callbackAggregate_same_id_fails_phase_not_id :
    callbackAggregateDecryption C3s 7 1 2 true = Except.ok C3s1 ∧
    callbackAggregateDecryption C3s1 7 1 2 true = Except.error Err.InvalidPhase ∧
    Err.InvalidPhase ≠ Err.InvalidRequestId :=
  ⟨by rfl, by rfl, by decide⟩

/-- Witness for C3 (amended): a non-pending id 9 is rejected with the
request-id error on C3s, and after the successful callback every
re-invocation fails. -/
theorem callbackAggregate_request_id_binding_witness :
    callbackAggregateDecryption C3s 9 1 2 true =
      Except.error Err.InvalidRequestId ∧
    (∃ e, callbackAggregateDecryption C3s1 9 1 2 true = Except.error e) :=
  ⟨(callbackAggregate_request_id_binding C3s C3s1 9 1 2 true).1 (by decide),
   ((callbackAggregate_request_id_binding C3s C3s1 7 1 2 true).2 (by rfl)).2.2
     9 1 2 true⟩

/-- C4: every successful claim callback marks the resolved participant
claimed and pays out exactly decryptedAmount * (contract balance at callback
time) / totalWinningAmount, where totalWinningAmount is totalYesAmount when
finalOutcome is true and totalNoAmount otherwise. -/
theorem callbackClaimRewards_payout (s s1 : MarketState)
    (rid predictionClear amountClear : Nat) (pOk : Bool)
    (h : callbackClaimRewards s rid predictionClear amountClear pOk =
      Except.ok s1) :
    s1.hasClaimed (findClaimUser s rid) = true ∧
    s1.balance + (amountClear % U64) * s.balance /
      (if s.finalOutcome then s.totalYesAmount else s.totalNoAmount) = s.balance := by
  obtain ⟨_, _, _, _, _, _, _, hle, hs⟩ := callbackClaimRewards_ok_inv h
  subst hs
  refine ⟨by simp [updateMap], ?_⟩
  show s.balance - (amountClear % U64) * s.balance /
      (if s.finalOutcome then s.totalYesAmount else s.totalNoAmount) +
      (amountClear % U64) * s.balance /
      (if s.finalOutcome then s.totalYesAmount else s.totalNoAmount) = s.balance
  omega

/-- Witness for C4: participant 1 of C4s, who bet 4 wei on the winning side,
is marked claimed and the balance drops by 4 * 20 / 10 = 8 wei. -/
theorem callbackClaimRewards_payout_witness :
    C4s1.hasClaimed (findClaimUser C4s 5) = true ∧
    C4s1.balance + (4 % U64) * C4s.balance /
      (if C4s.finalOutcome then C4s.totalYesAmount else C4s.totalNoAmount) =
      C4s.balance :=
  callbackClaimRewards_payout C4s C4s1 5 1 4 true (by rfl)

/-- C6: a resolved claim whose decrypted prediction does not match
finalOutcome fails with the Lost error, with no transfer and hasClaimed left
false for that participant; a participant already marked claimed can neither
complete another claim callback nor issue a new claim request. -/
theorem claim_lost_and_at_most_once (s : MarketState)
    (rid predictionClear amountClear : Nat) (pOk : Bool) :
    (s.currentPhase = Phase.Settled → s.isSettled = true → pOk = true →
      findClaimUser s rid ≠ 0 → s.hasClaimed (findClaimUser s rid) = false →
      ¬ ((predictionClear % U8 = 1 ∧ s.finalOutcome = true) ∨
         (predictionClear % U8 = 0 ∧ s.finalOutcome = false)) →
      callbackClaimRewards s rid predictionClear amountClear pOk =
        Except.error Err.Lost) ∧
    (s.hasClaimed (findClaimUser s rid) = true →
      ∃ e, callbackClaimRewards s rid predictionClear amountClear pOk =
        Except.error e) ∧
    (∀ sender, s.hasClaimed sender = true →
      ∃ e, claimRewards s sender = Except.error e) := by
  refine ⟨?_, ?_, ?_⟩
  · intro hph hset hpOk huser hcl hlost
    unfold callbackClaimRewards
    rw [if_neg (not_not_intro hph), if_neg (by simp [hset]), if_neg (by simp [hpOk]),
      if_neg huser, if_neg (by simp [hcl]), if_pos hlost]
  · intro hcl
    unfold callbackClaimRewards
    repeat' split
    all_goals first
      | exact ⟨_, rfl⟩
      | simp_all
  · intro sender hcl
    unfold claimRewards
    repeat' split
    all_goals first
      | exact ⟨_, rfl⟩
      | simp_all

/-- Witness for C6: on C6s the NO-predicting participant 1 of the
YES-outcome market fails with Lost, and once marked claimed in C6sClaimed,
both the claim callback and a new claim request fail. -/
theorem claim_lost_and_at_most_once_witness :
    callbackClaimRewards C6s 5 0 4 true = Except.error Err.Lost ∧
    (∃ e, callbackClaimRewards C6sClaimed 5 0 4 true = Except.error e) ∧
    (∃ e, claimRewards C6sClaimed 1 = Except.error e) :=
  ⟨(claim_lost_and_at_most_once C6s 5 0 4 true).1
      (by rfl) (by rfl) (by rfl) (by decide) (by rfl) (by decide),
   (claim_lost_and_at_most_once C6sClaimed 5 0 4 true).2.1 (by decide),
   (claim_lost_and_at_most_once C6sClaimed 5 0 4 true).2.2 1 (by rfl)⟩

/-- C10: commitPrediction never ties the encrypted amount to the attached
value: every otherwise-valid commit with a positive attached value and
well-formed ciphertexts succeeds and stores the caller-supplied plaintexts
unchanged, and there is an input for which the stored plaintext amount
differs from the attached ETH the market custodies. -/
theorem commitPrediction_amount_unbound (s : MarketState)
    (sender value now extPrediction extAmount : Nat)
    (hph : s.currentPhase = Phase.BlindCommitment)
    (hnow : now < s.commitmentDeadline)
    (hnc : (s.commitments sender).hasCommitted = false) (hval : 0 < value)
    (hown : ¬ (s.marketType = MarketType.Event ∧ sender = s.owner))
    (hP : extPrediction < U8) (hA : extAmount < U64) :
    (∃ s1, commitPrediction s sender value now extPrediction extAmount true true =
        Except.ok s1 ∧
      (s1.commitments sender).encryptedPrediction = extPrediction ∧
      (s1.commitments sender).encryptedAmount = extAmount ∧
      s1.balance = s.balance + value) ∧
    (∃ s0 s1 : MarketState, ∃ sd v n eP eA : Nat,
      commitPrediction s0 sd v n eP eA true true = Except.ok s1 ∧
      (s1.commitments sd).encryptedAmount ≠ v) := by
  constructor
  · refine ⟨{ s with
      commitments := updateMap s.commitments sender
        ⟨extPrediction % U8, extAmount % U64, true⟩
      participants := s.participants ++ [sender]
      balance := s.balance + value }, ?_, ?_, ?_, rfl⟩
    · unfold commitPrediction
      rw [if_neg (not_not_intro hph), if_neg (not_not_intro hnow),
        if_neg (by simp [hnc]), if_neg (not_not_intro hval), if_neg hown,
        if_neg (by simp), if_neg (by simp)]
    · simp [updateMap, Nat.mod_eq_of_lt hP]
    · simp [updateMap, Nat.mod_eq_of_lt hA]
  · exact ⟨C10base, C10s1, 1, 1, 0, 1, 5, by rfl, by decide⟩

/-- Witness for C10: a commit of 7 encrypted wei with 3 wei attached succeeds
on the fresh Price market and stores exactly the supplied plaintexts. -/
theorem commitPrediction_amount_unbound_witness :
    (∃ s1, commitPrediction C10base 2 3 0 1 7 true true = Except.ok s1 ∧
      (s1.commitments 2).encryptedPrediction = 1 ∧
      (s1.commitments 2).encryptedAmount = 7 ∧
      s1.balance = C10base.balance + 3) ∧
    (∃ s0 s1 : MarketState, ∃ sd v n eP eA : Nat,
      commitPrediction s0 sd v n eP eA true true = Except.ok s1 ∧
      (s1.commitments sd).encryptedAmount ≠ v) :=
  commitPrediction_amount_unbound C10base 2 3 0 1 7 (by rfl) (by decide) (by rfl)
    (by decide) (by decide) (by decide) (by decide)

/-- C9: claimRewards has no guard against an outstanding claim request: a
participant with an unclaimed commitment in a settled market can call it
twice in a row, both calls succeeding, with the second overwriting the stored
pending claim-request id by the newly issued one; a subsequent
callbackClaimRewards bearing the first (overwritten) id — held by no other
participant — then fails the user lookup with UserNotFound and pays nothing. -/
theorem claimRewards_overwrite_unguarded (s : MarketState)
    (sender predictionClear amountClear : Nat)
    (hph : s.currentPhase = Phase.Settled) (hset : s.isSettled = true)
    (hnc : s.hasClaimed sender = false)
    (hcom : (s.commitments sender).hasCommitted = true)
    (hfresh : ∀ q ∈ s.participants, q ≠ sender →
      s.claimRequestIds q ≠ s.nextRequestId) :
    ∃ s1 s2,
      claimRewards s sender = Except.ok s1 ∧
      s1.claimRequestIds sender = s.nextRequestId ∧
      claimRewards s1 sender = Except.ok s2 ∧
      s2.claimRequestIds sender = s.nextRequestId + 1 ∧
      callbackClaimRewards s2 s.nextRequestId predictionClear amountClear true =
        Except.error Err.UserNotFound := by
  refine ⟨{ s with
      claimRequestIds := updateMap s.claimRequestIds sender s.nextRequestId
      nextRequestId := s.nextRequestId + 1 },
    { s with
      claimRequestIds := updateMap
        (updateMap s.claimRequestIds sender s.nextRequestId) sender
        (s.nextRequestId + 1)
      nextRequestId := s.nextRequestId + 2 },
    ?_, ?_, ?_, ?_, ?_⟩
  · unfold claimRewards
    rw [if_neg (not_not_intro hph), if_neg (by simp [hset]),
      if_neg (by simp [hnc]), if_neg (by simp [hcom])]
  · simp [updateMap]
  · unfold claimRewards
    rw [if_neg (not_not_intro hph), if_neg (by simp [hset]),
      if_neg (by simp [hnc]), if_neg (by simp [hcom])]
  · simp [updateMap]
  · have hfind : (s.participants.find? (fun q =>
        updateMap (updateMap s.claimRequestIds sender s.nextRequestId) sender
          (s.nextRequestId + 1) q == s.nextRequestId)) = none := by
      apply List.find?_eq_none.mpr
      intro q hq
      simp only [updateMap, beq_eq_false_iff_ne, ne_eq, Bool.not_eq_true,
        beq_eq_false_iff_ne]
      by_cases hqs : q = sender
      · simp [hqs]
      · simp [hqs]
        exact hfresh q hq hqs
    unfold callbackClaimRewards
    rw [if_neg (not_not_intro hph), if_neg (by simp [hset]), if_neg (by simp),
      if_pos (by unfold findClaimUser; rw [hfind])]

/-- Witness for C9: on C9s, participant 1 claims twice; the second request id
2 overwrites the first id 1, and the callback carrying id 1 is rejected with
UserNotFound. -/
theorem claimRewards_overwrite_unguarded_witness :
    ∃ s1 s2,
      claimRewards C9s 1 = Except.ok s1 ∧
      s1.claimRequestIds 1 = C9s.nextRequestId ∧
      claimRewards s1 1 = Except.ok s2 ∧
      s2.claimRequestIds 1 = C9s.nextRequestId + 1 ∧
      callbackClaimRewards s2 C9s.nextRequestId 1 10 true =
        Except.error Err.UserNotFound :=
  claimRewards_overwrite_unguarded C9s 1 1 10 (by rfl) (by rfl) (by rfl) (by rfl)
    (by decide)

/-- The aggregation fold keeps both accumulators inside the euint64 domain
and preserves, modulo 2^64, the sum accumulator-total plus all processed
amounts, provided every processed prediction lies in {0,1}. -/
theorem aggFold_mod (s : MarketState) :
    ∀ (ps : List Nat) (acc : Nat × Nat),
    (∀ q ∈ ps, (s.commitments q).encryptedPrediction ≤ 1 ∧
      (s.commitments q).encryptedAmount < U64) →
    acc.1 < U64 → acc.2 < U64 →
    (ps.foldl (aggStep s) acc).1 < U64 ∧ (ps.foldl (aggStep s) acc).2 < U64 ∧
    ((ps.foldl (aggStep s) acc).1 + (ps.foldl (aggStep s) acc).2) % U64 =
      (acc.1 + acc.2 +
        (ps.map (fun q => (s.commitments q).encryptedAmount)).sum) % U64 := by
  intro ps
  induction ps with
  | nil =>
    intro acc _ hy hn
    simpa using ⟨hy, hn⟩
  | cons q rest ih =>
    intro acc hgood hy hn
    obtain ⟨hq1, hq2⟩ := hgood q (List.mem_cons_self q rest)
    have hrest := fun r hr => hgood r (List.mem_cons_of_mem q hr)
    have hU : 0 < U64 := by norm_num [U64]
    rcases Nat.le_one_iff_eq_zero_or_eq_one.mp hq1 with h0 | h1
    · have hstep : aggStep s acc q =
          (acc.1, (acc.2 + (s.commitments q).encryptedAmount) % U64) := by
        simp [aggStep, h0, U8, Nat.mod_eq_of_lt hy, Nat.mod_eq_of_lt hq2]
      rw [List.foldl_cons, hstep]
      obtain ⟨b1, b2, hmod⟩ :=
        ih (acc.1, (acc.2 + (s.commitments q).encryptedAmount) % U64) hrest hy
          (Nat.mod_lt _ hU)
      refine ⟨b1, b2, ?_⟩
      rw [hmod]
      simp only [List.map_cons, List.sum_cons, U64]
      omega
    · have hstep : aggStep s acc q =
          ((acc.1 + (s.commitments q).encryptedAmount) % U64, acc.2) := by
        simp [aggStep, h1, U8, Nat.mod_eq_of_lt hn, Nat.mod_eq_of_lt hq2]
      rw [List.foldl_cons, hstep]
      obtain ⟨b1, b2, hmod⟩ :=
        ih ((acc.1 + (s.commitments q).encryptedAmount) % U64, acc.2) hrest
          (Nat.mod_lt _ hU) hn
      refine ⟨b1, b2, ?_⟩
      rw [hmod]
      simp only [List.map_cons, List.sum_cons, U64]
      omega

/-- When the accumulator-total plus all remaining amounts stays below 2^64,
the aggregation fold is exact: no wraparound occurs. -/
theorem aggFold_exact (s : MarketState) :
    ∀ (ps : List Nat) (acc : Nat × Nat),
    (∀ q ∈ ps, (s.commitments q).encryptedPrediction ≤ 1 ∧
      (s.commitments q).encryptedAmount < U64) →
    acc.1 + acc.2 +
      (ps.map (fun q => (s.commitments q).encryptedAmount)).sum < U64 →
    (ps.foldl (aggStep s) acc).1 + (ps.foldl (aggStep s) acc).2 =
      acc.1 + acc.2 +
      (ps.map (fun q => (s.commitments q).encryptedAmount)).sum := by
  intro ps
  induction ps with
  | nil =>
    intro acc _ _
    simp
  | cons q rest ih =>
    intro acc hgood hsum
    obtain ⟨hq1, hq2⟩ := hgood q (List.mem_cons_self q rest)
    have hrest := fun r hr => hgood r (List.mem_cons_of_mem q hr)
    simp only [List.map_cons, List.sum_cons] at hsum
    have hy : acc.1 < U64 := by omega
    have hn : acc.2 < U64 := by omega
    rcases Nat.le_one_iff_eq_zero_or_eq_one.mp hq1 with h0 | h1
    · have hstep : aggStep s acc q =
          (acc.1, acc.2 + (s.commitments q).encryptedAmount) := by
        simp [aggStep, h0, U8, Nat.mod_eq_of_lt hy, Nat.mod_eq_of_lt hq2,
          Nat.mod_eq_of_lt (show acc.2 + (s.commitments q).encryptedAmount < U64
            by omega)]
      rw [List.foldl_cons, hstep]
      have hrec := ih (acc.1, acc.2 + (s.commitments q).encryptedAmount) hrest
        (by simp only [List.map_cons, List.sum_cons] at *; omega)
      simp only [List.map_cons, List.sum_cons] at *
      omega
    · have hstep : aggStep s acc q =
          (acc.1 + (s.commitments q).encryptedAmount, acc.2) := by
        simp [aggStep, h1, U8, Nat.mod_eq_of_lt hn, Nat.mod_eq_of_lt hq2,
          Nat.mod_eq_of_lt (show acc.1 + (s.commitments q).encryptedAmount < U64
            by omega)]
      rw [List.foldl_cons, hstep]
      have hrec := ih (acc.1 + (s.commitments q).encryptedAmount, acc.2) hrest
        (by simp only [List.map_cons, List.sum_cons] at *; omega)
      simp only [List.map_cons, List.sum_cons] at *
      omega

/-- Any sequence of successful commits whose external predictions reduce into
{0,1} preserves goodness of the stored commitments. -/
theorem commitMany_good :
    ∀ (calls : List CommitCall) (s s1 : MarketState),
    commitMany calls s = Except.ok s1 →
    (∀ c ∈ calls, c.extPrediction % U8 ≤ 1) →
    GoodState s → GoodState s1 := by
  intro calls
  induction calls with
  | nil =>
    intro s s1 h _ hgood
    simp only [commitMany] at h
    cases h
    exact hgood
  | cons c rest ih =>
    intro s s1 h hcalls hgood
    simp only [commitMany] at h
    cases happ : applyCommit s c with
    | error e =>
      rw [happ] at h
      exact Except.noConfusion h
    | ok s' =>
      rw [happ] at h
      refine ih s' s1 h (fun d hd => hcalls d (List.mem_cons_of_mem c hd)) ?_
      obtain ⟨_, _, _, _, hs⟩ := commitPrediction_ok_inv happ
      subst hs
      intro r hr
      have hnew : (⟨c.extPrediction % U8, c.extAmount % U64, true⟩ :
          Commitment).encryptedPrediction ≤ 1 ∧
          (⟨c.extPrediction % U8, c.extAmount % U64, true⟩ :
          Commitment).encryptedAmount < U64 :=
        ⟨hcalls c (List.mem_cons_self c rest),
         Nat.mod_lt _ (by norm_num [U64])⟩
      rcases List.mem_append.mp hr with hr1 | hr2
      · by_cases hrs : r = c.sender
        · subst hrs
          simpa [updateMap] using hnew
        · simpa [updateMap, hrs] using hgood r hr1
      · have : r = c.sender := by simpa using hr2
        subst this
        simpa [updateMap] using hnew

/-- C1 (amended): for every sequence of successful commits from the initial
state, followed by a successful aggregation, decryption request, and a
callback carrying the genuine decryption of the two encrypted accumulators,
with every committed prediction in {0,1}, the revealed totals satisfy
totalYesAmount + totalNoAmount = (sum of all stored plaintext amounts)
modulo 2^64; the equality is exact whenever that sum is below 2^64, but wraps
for larger totals, so the unqualified exact equality of the claim does not
hold in general. -/
theorem conservation (mt : MarketType) (creator t0 cdur edur tp : Nat)
    (oset : Bool) (calls : List CommitCall) (s1 s2 s3 s4 : MarketState)
    (now rid : Nat) (pOk : Bool)
    (h0 : commitMany calls (initialState mt creator t0 cdur edur oset tp) =
      Except.ok s1)
    (hcalls : ∀ c ∈ calls, c.extPrediction % U8 ≤ 1)
    (h1 : aggregateBets s1 now = Except.ok s2)
    (h2 : requestAggregateDecryption s2 = Except.ok s3)
    (h3 : callbackAggregateDecryption s3 rid s3.encryptedTotalYes
      s3.encryptedTotalNo pOk = Except.ok s4) :
    (s4.totalYesAmount + s4.totalNoAmount) % U64 = sumCommittedAmounts s1 % U64 ∧
    (sumCommittedAmounts s1 < U64 →
      s4.totalYesAmount + s4.totalNoAmount = sumCommittedAmounts s1) := by
  have hgood : GoodState s1 :=
    commitMany_good calls _ s1 h0 hcalls
      (by intro r hr; simp [initialState] at hr)
  obtain ⟨_, _, _, hs2⟩ := aggregateBets_ok_inv h1
  obtain ⟨_, _, hs3⟩ := requestAggregateDecryption_ok_inv h2
  obtain ⟨_, _, _, hs4⟩ := callbackAggregateDecryption_ok_inv h3
  subst hs4
  subst hs3
  subst hs2
  obtain ⟨b1, b2, hmod⟩ := aggFold_mod s1 s1.participants (0, 0)
    (fun r hr => hgood r hr) (by norm_num [U64]) (by norm_num [U64])
  constructor
  · show ((s1.participants.foldl (aggStep s1) (0, 0)).1 % U64 +
        (s1.participants.foldl (aggStep s1) (0, 0)).2 % U64) % U64 =
      sumCommittedAmounts s1 % U64
    rw [Nat.mod_eq_of_lt b1, Nat.mod_eq_of_lt b2]
    simpa [sumCommittedAmounts] using hmod
  · intro hlt
    have hex := aggFold_exact s1 s1.participants (0, 0)
      (fun r hr => hgood r hr)
      (by simpa [sumCommittedAmounts] using hlt)
    show (s1.participants.foldl (aggStep s1) (0, 0)).1 % U64 +
        (s1.participants.foldl (aggStep s1) (0, 0)).2 % U64 =
      sumCommittedAmounts s1
    rw [Nat.mod_eq_of_lt b1, Nat.mod_eq_of_lt b2]
    simpa [sumCommittedAmounts] using hex

/-- Counterexample to C1 as stated: two YES commits of 2^63 wei each make the
committed sum 2^64; the full pipeline succeeds, every prediction lies in
{0,1}, yet the revealed totals sum to 0, not 2^64: the euint64 accumulators
wrap, so the exact equality of the claim fails. -/
theorem conservation_not_exact :
    commitMany C1calls C1s0 = Except.ok C1s1 ∧
    (∀ c ∈ C1calls, c.extPrediction % U8 ≤ 1) ∧
    aggregateBets C1s1 10 = Except.ok C1s2 ∧
    requestAggregateDecryption C1s2 = Except.ok C1s3 ∧
    callbackAggregateDecryption C1s3 1 C1s3.encryptedTotalYes
      C1s3.encryptedTotalNo true = Except.ok C1s4 ∧
    C1s4.totalYesAmount + C1s4.totalNoAmount ≠ sumCommittedAmounts C1s1 :=
  ⟨by rfl, by decide, by rfl, by rfl, by rfl, by decide⟩

/-- Witness for C1 (amended): the three-commit run (10 YES, 20 NO, 15 YES)
reveals totals summing to 45, which is the committed sum both modulo 2^64
and exactly. -/
theorem conservation_witness :
    (C1ws4.totalYesAmount + C1ws4.totalNoAmount) % U64 =
      sumCommittedAmounts C1ws1 % U64 ∧
    C1ws4.totalYesAmount + C1ws4.totalNoAmount = sumCommittedAmounts C1ws1 :=
  ⟨(conservation MarketType.Event 9 0 10 0 0 false C1wcalls C1ws1 C1ws2 C1ws3
      C1ws4 10 1 true (by rfl) (by decide) (by rfl) (by rfl) (by rfl)).1,
   (conservation MarketType.Event 9 0 10 0 0 false C1wcalls C1ws1 C1ws2 C1ws3
      C1ws4 10 1 true (by rfl) (by decide) (by rfl) (by rfl) (by rfl)).2
     (by decide)⟩

end BlindOracle
